import Mathlib

/-!
Verification of the intent-routing and dispatch core of the AI routing
system: the provider cascade router (`llmRouterController.js`), the
instruction validator, and the database controller
(`databaseController.js`), shallowly embedded in Lean.

JavaScript strings are modelled as lists of character codes (`Str`),
so that the character-level operations of the source (`toLowerCase`,
`trim`, `endsWith`, `slice`, `includes`, `replace`) become executable
Lean functions with decidable properties.
-/

/-- A JavaScript string, as its list of character codes. -/
abbrev Str := List Nat

/-- Embed a Lean string literal as a `Str`. -/
def str (s : String) : Str := s.data.map Char.toNat

/-- ASCII lower-casing of one character code (model of `toLowerCase`). -/
def lowerCode (n : Nat) : Nat := if 65 ≤ n ∧ n ≤ 90 then n + 32 else n

/-- Model of `String.prototype.toLowerCase`. -/
def lowerStr (s : Str) : Str := s.map lowerCode

/-- Whitespace test used by the model of `String.prototype.trim`. -/
def isWsCode (n : Nat) : Bool := n = 32 || (9 ≤ n && n ≤ 13)

/-- Model of `String.prototype.trim`: drop leading and trailing whitespace. -/
def trimStr (s : Str) : Str :=
  ((s.dropWhile isWsCode).reverse.dropWhile isWsCode).reverse

/-- Model of `s.endsWith(c)` for a one-character suffix. -/
def endsWithCode (s : Str) (c : Nat) : Bool := s.getLast? = some c

/-- Does `pat` occur at the start of `s`? (helper for `includes`). -/
def startsWithStr : Str → Str → Bool
  | [], _ => true
  | _ :: _, [] => false
  | a :: as, b :: bs => a = b && startsWithStr as bs

/-- Model of `String.prototype.includes` (substring test). -/
def containsSub (s pat : Str) : Bool :=
  match s with
  | [] => startsWithStr pat []
  | _ :: rest => startsWithStr pat s || containsSub rest pat

/-- Truthiness of an optional JS string: `null`/`undefined` and `""` are falsy. -/
def truthyS (o : Option Str) : Bool :=
  match o with
  | none => false
  | some s => !s.isEmpty

/-! ## Data model: JS values, dates, records -/

/-- Model of a JS `Date`, at the granularity the core logic uses. -/
structure JsDate where
  year : Int
  month : Int
  day : Int
deriving DecidableEq, Repr

/-- `d.setMonth(d.getMonth() - 1)`: one calendar month earlier, with
year rollover when the month is January (month `0`). -/
def minusOneMonth (d : JsDate) : JsDate :=
  if d.month = 0 then ⟨d.year - 1, 11, d.day⟩ else ⟨d.year, d.month - 1, d.day⟩

/-- A loosely-typed JS value as stored in filters, data bags and records. -/
inductive DbVal where
  | str (s : Str)
  | num (n : Int)
  | boolV (b : Bool)
  | date (d : JsDate)
  | null
deriving DecidableEq, Repr

/-- A flat JS object (field-name → value bag), in key insertion order. -/
abbrev Bag := List (Str × DbVal)

/-- A persisted record: store-assigned `id` plus its document fields. -/
structure Record where
  id : Nat
  fields : Bag
deriving DecidableEq, Repr

/-! ## Instruction extractor/validator (`llmRouterController.js`) -/

/-- The `parameters` object of a routing instruction. -/
structure Params where
  location : Option Str := none
  city : Option Str := none
  entity : Option Str := none
  filters : Option Bag := none
  data : Option Bag := none
deriving DecidableEq, Repr

/-- A parsed routing instruction, as produced by `JSON.parse` on the
provider output and consumed by the validator. -/
structure RoutingInstruction where
  tool : Option Str := none
  action : Option Str := none
  parameters : Option Params := none
  insufficientInfo : Bool := false
  missingInfo : Option Str := none
  guidedResponse : Option Str := none
  intent : Option Str := none
deriving DecidableEq, Repr

/-- The validation section of `routeQuery` (lines 255-299 of
`llmRouterController.js`): if `insufficientInfo === true` return at once;
otherwise check `tool`, `action`, tool-specific parameters, and default
`filters`/`data`, downgrading violations to `insufficientInfo = true`. -/
def validateRouting (ri : RoutingInstruction) : RoutingInstruction :=
  if ri.insufficientInfo then ri
  else if ¬(truthyS ri.tool = true ∧
      (ri.tool = some (str "weather") ∨ ri.tool = some (str "database"))) then
    { ri with insufficientInfo := true,
              missingInfo := some (str "Unable to determine what you need. Please be more specific.") }
  else if ¬(truthyS ri.action = true) then
    { ri with insufficientInfo := true,
              missingInfo := some (str "Unable to determine the action. Please specify what you want to do.") }
  else
    let ps := ri.parameters.getD {}
    if ri.tool = some (str "weather") ∧ ¬(truthyS ps.location = true) ∧
        ¬(truthyS ps.city = true) then
      { ri with parameters := some ps, insufficientInfo := true,
                missingInfo := some (str "location/city name") }
    else if ri.tool = some (str "database") then
      let ps2 : Params :=
        { ps with filters := some (ps.filters.getD []), data := some (ps.data.getD []) }
      { ri with parameters := some ps2 }
    else
      { ri with parameters := some ps }

/-- Outcome of the API route handler, as seen by the caller. -/
inductive ApiResult where
  | success (response : Str)
  | failure (errorMsg : Str)
deriving DecidableEq, Repr

/-- Steps 5-6 of `POST /api/query` (`route.js` lines 82-152), applied to the
instruction returned by `routeQuery`.  The weather and database tools are
passed in as functions; the returned booleans record whether the weather
tool, respectively the database dispatcher, was invoked. -/
def handleRouted (weatherTool : Str → Str) (dbTool : Str → Str → Params → Str)
    (weatherHelp generalHelp : Str) (databaseHelp : Option Str → Str)
    (ri : RoutingInstruction) : ApiResult × Bool × Bool :=
  if ri.insufficientInfo then
    let helpMessage :=
      if truthyS ri.guidedResponse then ri.guidedResponse.getD []
      else if ri.tool = some (str "weather") then weatherHelp
      else if ri.tool = some (str "database") then databaseHelp ri.missingInfo
      else generalHelp
    (.success helpMessage, false, false)
  else
    let ps := ri.parameters.getD {}
    if ri.tool = some (str "weather") then
      let location :=
        if truthyS ps.location then ps.location.getD []
        else if truthyS ps.city then ps.city.getD []
        else str "Unknown"
      if location = str "Unknown" then (.success weatherHelp, false, false)
      else (.success (weatherTool location), true, false)
    else if ri.tool = some (str "database") then
      let entity := if truthyS ps.entity then ps.entity.getD [] else str "records"
      (.success (dbTool (ri.action.getD []) entity ps), false, true)
    else
      (.failure (str "Failed to execute tool operation."), false, false)

/-! ## First claims about the validator -/

/-- **C1.** An instruction flagged `insufficientInfo = true` passes through the
validator unchanged (no further validation), the API handler answers with a
guidance message — the instruction's own `guidedResponse` when that is a
non-empty string — and neither the weather tool nor the database dispatcher
is ever invoked for it. -/
theorem insufficientInfo_short_circuits (ri : RoutingInstruction)
    (h : ri.insufficientInfo = true)
    (wf : Str → Str) (dbf : Str → Str → Params → Str)
    (wh gh : Str) (dbh : Option Str → Str) :
    validateRouting ri = ri ∧
    (handleRouted wf dbf wh gh dbh ri).2.1 = false ∧
    (handleRouted wf dbf wh gh dbh ri).2.2 = false ∧
    (truthyS ri.guidedResponse = true →
      (handleRouted wf dbf wh gh dbh ri).1 = .success (ri.guidedResponse.getD [])) := by
  refine ⟨?_, ?_, ?_, ?_⟩
  · simp [validateRouting, h]
  · simp [handleRouted, h]
  · simp [handleRouted, h]
  · intro hg
    simp [handleRouted, h, hg]

/-- Witness for C1 at a concrete insufficient instruction. -/
theorem insufficientInfo_short_circuits_witness :
    let ri : RoutingInstruction :=
      { tool := some (str "database"), action := some (str "add"),
        insufficientInfo := true, guidedResponse := some (str "Try: add order for $50.") }
    validateRouting ri = ri ∧
    (handleRouted (fun _ => str "w") (fun _ _ _ => str "d") (str "wh") (str "gh")
      (fun _ => str "dh") ri).2.1 = false ∧
    (handleRouted (fun _ => str "w") (fun _ _ _ => str "d") (str "wh") (str "gh")
      (fun _ => str "dh") ri).2.2 = false ∧
    (handleRouted (fun _ => str "w") (fun _ _ _ => str "d") (str "wh") (str "gh")
      (fun _ => str "dh") ri).1 = .success (str "Try: add order for $50.") := by
  have h := insufficientInfo_short_circuits
    { tool := some (str "database"), action := some (str "add"),
      insufficientInfo := true, guidedResponse := some (str "Try: add order for $50.") }
    rfl (fun _ => str "w") (fun _ _ _ => str "d") (str "wh") (str "gh") (fun _ => str "dh")
  exact ⟨h.1, h.2.1, h.2.2.1, h.2.2.2 (by decide)⟩

/-- **C2.** After validation, an instruction with `insufficientInfo = false`
has `tool` equal to `"weather"` or `"database"` and a non-empty `action`;
and whenever the parsed instruction violates that shape, the validator
forces `insufficientInfo = true` (it returns a value rather than failing). -/
theorem validated_instruction_invariant (ri : RoutingInstruction) :
    ((validateRouting ri).insufficientInfo = false →
      ((validateRouting ri).tool = some (str "weather") ∨
        (validateRouting ri).tool = some (str "database")) ∧
      truthyS (validateRouting ri).action = true) ∧
    (¬(truthyS ri.tool = true ∧
        (ri.tool = some (str "weather") ∨ ri.tool = some (str "database")) ∧
        truthyS ri.action = true) →
      (validateRouting ri).insufficientInfo = true) := by
  have hne1 : ¬(str "database" = str "weather") := by decide
  have hne2 : ¬(str "weather" = str "database") := by decide
  constructor
  · intro h
    unfold validateRouting at h ⊢
    split_ifs at h ⊢ <;> simp_all [hne1, hne2] <;>
      split_ifs at h ⊢ <;> simp_all
  · intro hbad
    unfold validateRouting
    split_ifs <;> simp_all [hne1, hne2]

/-- Witness for C2: a parsed instruction with an invalid tool is forced to
`insufficientInfo = true`, and a valid one keeps the invariant. -/
theorem validated_instruction_invariant_witness :
    (validateRouting { tool := some (str "calendar"), action := some (str "add") }).insufficientInfo
      = true ∧
    (((validateRouting { tool := some (str "database"), action := some (str "add") }).tool
        = some (str "weather") ∨
      (validateRouting { tool := some (str "database"), action := some (str "add") }).tool
        = some (str "database")) ∧
      truthyS (validateRouting { tool := some (str "database"), action := some (str "add") }).action
        = true) := by
  constructor
  · exact (validated_instruction_invariant
      { tool := some (str "calendar"), action := some (str "add") }).2 (by decide)
  · exact (validated_instruction_invariant
      { tool := some (str "database"), action := some (str "add") }).1 (by decide)

/-! ## Provider cascade router (`llmRouterController.js`) -/

/-- The raw error a completion call can fail with: an HTTP-like status
(collapsing `error.status`, `error.response.status`, `error.statusCode`)
and a message. -/
structure RawErr where
  status : Option Nat
  message : Str
deriving DecidableEq, Repr

/-- `tryModel` (lines 75-104): one completion call, classifying quota and
model-not-found failures into tagged error messages and rethrowing the
original message otherwise.  The provider itself is a parameter. -/
def tryModel (provider : Str → Str → Except RawErr Str)
    (apiKey modelName : Str) : Except Str Str :=
  match provider apiKey modelName with
  | .ok t => .ok t
  | .error e =>
    if e.status = some 429 ∨ containsSub e.message (str "429") = true ∨
        containsSub e.message (str "quota") = true then
      .error (str "QUOTA_EXCEEDED: " ++ modelName)
    else if e.status = some 404 ∨ containsSub e.message (str "not found") = true ∨
        containsSub e.message (str "404") = true ∨
        containsSub e.message (str "is not found for API version") = true ∨
        containsSub e.message (str "is not supported for generateContent") = true then
      .error (str "MODEL_NOT_FOUND: " ++ modelName)
    else
      .error e.message

/-- `MODEL_FALLBACK_LIST` (lines 62-66). -/
def modelFallbackList : List Str :=
  [str "gemini-2.5-flash-lite", str "gemini-2.5-flash", str "gemini-2.0-flash"]

/-- The inner model loop of `routeQuery` (lines 203-223): try each model in
order with one key, stopping at the first success, updating `lastError` on
every failure.  Returns the attempted `(key, model)` pairs in order, the
success text if any, and the final `lastError`. -/
def runModels (provider : Str → Str → Except RawErr Str) (apiKey : Str) :
    List Str → Option Str → List (Str × Str) × Option Str × Option Str
  | [], lastError => ([], none, lastError)
  | m :: rest, lastError =>
    match tryModel provider apiKey m with
    | .ok t => ([(apiKey, m)], some t, lastError)
    | .error e =>
      let r := runModels provider apiKey rest (some e)
      ((apiKey, m) :: r.1, r.2.1, r.2.2)

/-- The outer key loop of `routeQuery` (lines 199-227): for each key run the
model loop, stopping as soon as a text was obtained. -/
def runKeys (provider : Str → Str → Except RawErr Str) :
    List Str → List Str → Option Str → List (Str × Str) × Option Str × Option Str
  | [], _, lastError => ([], none, lastError)
  | k :: rest, models, lastError =>
    let r := runModels provider k models lastError
    match r.2.1 with
    | some t => (r.1, some t, r.2.2)
    | none =>
      let r2 := runKeys provider rest models r.2.2
      (r.1 ++ r2.1, r2.2.1, r2.2.2)

/-- The final `lastError` message as interpolated by line 230
(`lastError?.message || 'Unknown error'`): an empty message is falsy. -/
def lastErrText : Option Str → Str
  | some m => if m = [] then str "Unknown error" else m
  | none => str "Unknown error"

/-- The cascade of `routeQuery` (lines 192-231): the full credential × model
matrix with short-circuit on success, failing with the
all-providers-exhausted message built from the last observed error. -/
def classifyCascade (provider : Str → Str → Except RawErr Str)
    (keys models : List Str) : List (Str × Str) × Except Str Str :=
  let r := runKeys provider keys models none
  match r.2.1 with
  | some t => (r.1, .ok t)
  | none =>
    (r.1, .error (str "All keys and models failed. Last error: " ++ lastErrText r.2.2))

/-- The credential × model matrix in iteration order. -/
def allPairs (keys models : List Str) : List (Str × Str) :=
  keys.flatMap (fun k => models.map (fun m => (k, m)))

/-- The error text recorded for a failed attempt. -/
def errTextOf : Except Str Str → Option Str
  | .ok _ => none
  | .error e => some e

/-- The error text of a failed attempt (and `[]` for a success; only used
when the attempt is known to fail). -/
def errStr (provider : Str → Str → Except RawErr Str) (k m : Str) : Str :=
  match tryModel provider k m with
  | .ok _ => []
  | .error e => e

/-- When every model fails for one key, the inner loop attempts each model
once in order, yields no text, and its `lastError` is the fold of the
per-model errors over the incoming one. -/
theorem runModels_all_fail (provider : Str → Str → Except RawErr Str)
    (apiKey : Str) (models : List Str)
    (hfail : ∀ m ∈ models, ∃ e, tryModel provider apiKey m = .error e)
    (lastError : Option Str) :
    runModels provider apiKey models lastError =
      (models.map (fun m => (apiKey, m)), none,
        models.foldl (fun _ m => some (errStr provider apiKey m)) lastError) := by
  induction models generalizing lastError with
  | nil => rfl
  | cons m rest ih =>
    obtain ⟨e, he⟩ := hfail m (by simp)
    have hrest : ∀ m' ∈ rest, ∃ e', tryModel provider apiKey m' = .error e' :=
      fun m' hm' => hfail m' (by simp [hm'])
    simp only [runModels, he, ih hrest, List.foldl_cons, List.map_cons]
    simp [errStr, he]

/-- When every pair fails, the key loop attempts the whole credential × model
matrix in order and threads `lastError` through every attempt. -/
theorem runKeys_all_fail (provider : Str → Str → Except RawErr Str)
    (keys models : List Str)
    (hfail : ∀ k ∈ keys, ∀ m ∈ models, ∃ e, tryModel provider k m = .error e)
    (lastError : Option Str) :
    runKeys provider keys models lastError =
      (allPairs keys models, none,
        keys.foldl (fun acc k =>
          models.foldl (fun _ m => some (errStr provider k m)) acc) lastError) := by
  induction keys generalizing lastError with
  | nil => rfl
  | cons k rest ih =>
    have hk := runModels_all_fail provider k models (hfail k (by simp)) lastError
    have hrest : ∀ k' ∈ rest, ∀ m ∈ models, ∃ e, tryModel provider k' m = .error e :=
      fun k' hk' => hfail k' (by simp [hk'])
    simp only [runKeys, hk, ih hrest, allPairs, List.flatMap_cons, List.foldl_cons]

/-- A fold whose step function ignores its accumulator is its step at the
last element. -/
theorem foldl_ignores_acc {α β : Type} (g : α → β → α)
    (hg : ∀ a b k, g a k = g b k) :
    ∀ (l : List β) (a : α) (m : β), l.getLast? = some m → l.foldl g a = g a m := by
  intro l
  induction l with
  | nil => intro a m hm; simp at hm
  | cons x xs ih =>
    intro a m hm
    cases hxs : xs with
    | nil => subst hxs; simp_all
    | cons y ys =>
      subst hxs
      have hlast : (y :: ys).getLast? = some m := by
        simpa [List.getLast?_cons_cons] using hm
      have hfold := ih (g a x) m hlast
      simp only [List.foldl_cons] at hfold ⊢
      rw [hfold, hg (g a x) a m]

/-- **C3.** When every (credential, model) completion call fails, the cascade
attempts exactly the credential × model matrix — credentials in order and,
within each credential, models in priority order, each pair exactly once —
and then fails with the all-keys-and-models-failed error carrying the last
observed error, i.e. the error of the last credential with the last model. -/
theorem cascade_tries_all_pairs_then_exhausts
    (provider : Str → Str → Except RawErr Str) (keys models : List Str)
    (hfail : ∀ k ∈ keys, ∀ m ∈ models, ∃ e, tryModel provider k m = .error e) :
    (classifyCascade provider keys models).1 = allPairs keys models ∧
    ∀ k m, keys.getLast? = some k → models.getLast? = some m →
      (classifyCascade provider keys models).2 =
        .error (str "All keys and models failed. Last error: " ++
          lastErrText (some (errStr provider k m))) := by
  unfold classifyCascade
  rw [runKeys_all_fail provider keys models hfail none]
  refine ⟨rfl, ?_⟩
  intro k m hk hm
  have hinner : ∀ (k' : Str) (a : Option Str),
      models.foldl (fun _ m' => some (errStr provider k' m')) a =
        some (errStr provider k' m) := by
    intro k' a
    exact foldl_ignores_acc (fun _ m' => some (errStr provider k' m'))
      (fun _ _ _ => rfl) models a m hm
  have houter := foldl_ignores_acc
    (fun acc k' => models.foldl (fun _ m' => some (errStr provider k' m')) acc)
    (fun a b k' => by
      show models.foldl (fun _ m' => some (errStr provider k' m')) a =
        models.foldl (fun _ m' => some (errStr provider k' m')) b
      rw [hinner k' a, hinner k' b])
    keys none k hk
  have hfinal : keys.foldl (fun acc k' =>
      models.foldl (fun _ m' => some (errStr provider k' m')) acc) none =
      some (errStr provider k m) := by
    rw [houter]; exact hinner k none
  rw [hfinal]

/-- Witness for C3: two quota-limited credentials and two models give exactly
four attempts in order A/m1, A/m2, B/m1, B/m2, and the exhaustion error
carries the last observed (quota) error. -/
theorem cascade_tries_all_pairs_then_exhausts_witness :
    (classifyCascade (fun _ _ => .error ⟨some 429, str "quota exceeded"⟩)
        [str "A", str "B"] [str "m1", str "m2"]).1 =
      [(str "A", str "m1"), (str "A", str "m2"), (str "B", str "m1"), (str "B", str "m2")] ∧
    (classifyCascade (fun _ _ => .error ⟨some 429, str "quota exceeded"⟩)
        [str "A", str "B"] [str "m1", str "m2"]).2 =
      .error (str "All keys and models failed. Last error: QUOTA_EXCEEDED: m2") := by
  have h := cascade_tries_all_pairs_then_exhausts
    (fun _ _ => .error ⟨some 429, str "quota exceeded"⟩)
    [str "A", str "B"] [str "m1", str "m2"]
    (by intro k _ m _; exact ⟨_, rfl⟩)
  refine ⟨h.1.trans (by decide), ?_⟩
  rw [h.2 (str "B") (str "m2") (by decide) (by decide)]
  have : lastErrText (some (errStr
      (fun _ _ => .error ⟨some 429, str "quota exceeded"⟩) (str "B") (str "m2"))) =
      str "QUOTA_EXCEEDED: m2" := by decide
  rw [this]
  have happ : str "All keys and models failed. Last error: " ++ str "QUOTA_EXCEEDED: m2" =
      str "All keys and models failed. Last error: QUOTA_EXCEEDED: m2" := by decide
  rw [happ]

/-- Reference formulation used to state C4 (from the spec's "on first
success, stop immediately"): a single left-to-right scan of the pair list,
stopping at the first successful call. -/
def firstSuccessScan (f : Str × Str → Except Str Str) :
    List (Str × Str) → List (Str × Str) × Option Str
  | [] => ([], none)
  | p :: rest =>
    match f p with
    | .ok t => ([p], some t)
    | .error _ =>
      let r := firstSuccessScan f rest
      (p :: r.1, r.2)

/-- The inner model loop is the scan of its own row of the matrix. -/
theorem runModels_eq_scan (provider : Str → Str → Except RawErr Str)
    (k : Str) (models : List Str) (lastError : Option Str) :
    (runModels provider k models lastError).1 =
      (firstSuccessScan (fun p => tryModel provider p.1 p.2)
        (models.map (fun m => (k, m)))).1 ∧
    (runModels provider k models lastError).2.1 =
      (firstSuccessScan (fun p => tryModel provider p.1 p.2)
        (models.map (fun m => (k, m)))).2 := by
  induction models generalizing lastError with
  | nil => exact ⟨rfl, rfl⟩
  | cons m rest ih =>
    simp only [runModels, List.map_cons, firstSuccessScan]
    cases htry : tryModel provider k m with
    | ok t => exact ⟨rfl, rfl⟩
    | error e =>
      obtain ⟨ih1, ih2⟩ := ih (some e)
      exact ⟨by simp [ih1], by simp [ih2]⟩

/-- Scanning an appended list: the left part decides whether the right part
is reached. -/
theorem firstSuccessScan_append (f : Str × Str → Except Str Str)
    (l₁ l₂ : List (Str × Str)) :
    firstSuccessScan f (l₁ ++ l₂) =
      match (firstSuccessScan f l₁).2 with
      | some _ => firstSuccessScan f l₁
      | none => ((firstSuccessScan f l₁).1 ++ (firstSuccessScan f l₂).1,
                 (firstSuccessScan f l₂).2) := by
  induction l₁ with
  | nil => simp [firstSuccessScan]
  | cons p l₁ ih =>
    cases hf : f p with
    | ok t => simp [firstSuccessScan, hf]
    | error e =>
      simp only [List.cons_append, firstSuccessScan, hf]
      cases h1 : (firstSuccessScan f l₁).2 <;> simp [h1, ih]

/-- The key loop computes the scan of the whole credential × model matrix. -/
theorem runKeys_eq_scan (provider : Str → Str → Except RawErr Str)
    (keys models : List Str) (lastError : Option Str) :
    (runKeys provider keys models lastError).1 =
      (firstSuccessScan (fun p => tryModel provider p.1 p.2) (allPairs keys models)).1 ∧
    (runKeys provider keys models lastError).2.1 =
      (firstSuccessScan (fun p => tryModel provider p.1 p.2) (allPairs keys models)).2 := by
  induction keys generalizing lastError with
  | nil => exact ⟨rfl, rfl⟩
  | cons k rest ih =>
    simp only [runKeys, allPairs, List.flatMap_cons]
    rw [firstSuccessScan_append]
    obtain ⟨h1, h2⟩ := runModels_eq_scan provider k models lastError
    cases hres : (runModels provider k models lastError).2.1 with
    | some t =>
      rw [← h2, hres]
      simp [h1, ← h2, hres]
    | none =>
      rw [← h2, hres]
      obtain ⟨ih1, ih2⟩ := ih (runModels provider k models lastError).2.2
      simp [h1, ih1, ih2, allPairs]

/-- A successful scan stops right at the first success: the trace is a prefix
of the list ending at the succeeding pair, everything before it failed, and
the scan's text is that pair's text. -/
theorem firstSuccessScan_success (f : Str × Str → Except Str Str) :
    ∀ (l : List (Str × Str)) (t : Str), (firstSuccessScan f l).2 = some t →
      ∃ pre p, (firstSuccessScan f l).1 = pre ++ [p] ∧ f p = .ok t ∧
        (∀ q ∈ pre, ∃ e, f q = .error e) ∧
        ∃ rest2, (firstSuccessScan f l).1 ++ rest2 = l := by
  intro l
  induction l with
  | nil => intro t ht; simp [firstSuccessScan] at ht
  | cons p l ih =>
    intro t ht
    cases hf : f p with
    | ok t' =>
      have hscan : firstSuccessScan f (p :: l) = ([p], some t') := by
        simp [firstSuccessScan, hf]
      rw [hscan] at ht
      obtain rfl : t' = t := by simpa using ht
      exact ⟨[], p, by simp [hscan], hf, by simp, l, by simp [hscan]⟩
    | error e =>
      have hscan : firstSuccessScan f (p :: l) =
          (p :: (firstSuccessScan f l).1, (firstSuccessScan f l).2) := by
        simp [firstSuccessScan, hf]
      rw [hscan] at ht
      obtain ⟨pre, q, htrace, hok, hpre, rest2, hrest⟩ := ih t ht
      refine ⟨p :: pre, q, ?_, hok, ?_, rest2, ?_⟩
      · rw [hscan]; simpa using htrace
      · intro q' hq'
        rcases List.mem_cons.mp hq' with hq' | hq'
        · exact ⟨e, hq' ▸ hf⟩
        · exact hpre q' hq'
      · rw [hscan]; simpa using hrest

/-- **C4.** Whenever the cascade returns a text, it stopped at the first
successful (credential, model) call: the attempt trace is a prefix of the
matrix ending exactly at the succeeding pair, every earlier attempt failed,
no later pair was attempted, and the returned text is that call's text. -/
theorem cascade_stops_at_first_success
    (provider : Str → Str → Except RawErr Str) (keys models : List Str) (t : Str)
    (h : (classifyCascade provider keys models).2 = .ok t) :
    ∃ pre p, (classifyCascade provider keys models).1 = pre ++ [p] ∧
      tryModel provider p.1 p.2 = .ok t ∧
      (∀ q ∈ pre, ∃ e, tryModel provider q.1 q.2 = .error e) ∧
      ∃ rest2, (classifyCascade provider keys models).1 ++ rest2 = allPairs keys models := by
  obtain ⟨h1, h2⟩ := runKeys_eq_scan provider keys models none
  have hal : classifyCascade provider keys models =
      (match (runKeys provider keys models none).2.1 with
        | some t' => ((runKeys provider keys models none).1, Except.ok t')
        | none => ((runKeys provider keys models none).1,
            Except.error (str "All keys and models failed. Last error: " ++
              lastErrText (runKeys provider keys models none).2.2))) := rfl
  rw [hal] at h ⊢
  cases hres : (runKeys provider keys models none).2.1 with
  | none => rw [hres] at h; simp at h
  | some t' =>
    rw [hres] at h
    have heq : t' = t := by simpa using h
    have hscan2 : (firstSuccessScan (fun p => tryModel provider p.1 p.2)
        (allPairs keys models)).2 = some t := by
      rw [← h2, hres, heq]
    obtain ⟨pre, p, htrace, hok, hpre, rest2, hrest⟩ :=
      firstSuccessScan_success (fun p => tryModel provider p.1 p.2)
        (allPairs keys models) t hscan2
    refine ⟨pre, p, ?_, hok, hpre, rest2, ?_⟩
    · simp only [h1]
      exact htrace
    · simp only [h1]
      exact hrest

/-- A provider whose first credential is quota-limited on the first model
and which succeeds otherwise: used to witness C4. -/
def flakyProvider : Str → Str → Except RawErr Str := fun k m =>
  if k = str "A" ∧ m = str "m1" then .error ⟨some 429, str "quota exceeded"⟩
  else .ok (str "TEXT")

/-- Witness for C4 at a concrete provider: the cascade stops right after the
first success and returns its text. -/
theorem cascade_stops_at_first_success_witness :
    ∃ pre p, (classifyCascade flakyProvider [str "A", str "B"] [str "m1", str "m2"]).1 =
        pre ++ [p] ∧
      tryModel flakyProvider p.1 p.2 = .ok (str "TEXT") ∧
      (∀ q ∈ pre, ∃ e, tryModel flakyProvider q.1 q.2 = .error e) ∧
      ∃ rest2, (classifyCascade flakyProvider [str "A", str "B"] [str "m1", str "m2"]).1 ++
        rest2 = allPairs [str "A", str "B"] [str "m1", str "m2"] :=
  cascade_stops_at_first_success flakyProvider [str "A", str "B"]
    [str "m1", str "m2"] (str "TEXT") rfl

/-! ## Database controller (`databaseController.js`) -/

/-- `normalizeEntity` (lines 146-156): lower-case and trim; a trailing `y`
becomes `ies`; otherwise append `s` unless already ending in `s`; falsy
input maps to `null`. -/
def normalizeEntity : Option Str → Option Str
  | none => none
  | some s =>
    if s.isEmpty then none
    else
      let normalized := trimStr (lowerStr s)
      if endsWithCode normalized 121 then some (normalized.dropLast ++ str "ies")
      else if endsWithCode normalized 115 then some normalized
      else some (normalized ++ str "s")

/-- The wildcard vocabulary (`genericEntities`, lines 214/267/316). -/
def genericEntities : List Str :=
  [str "records", str "record", str "database", str "databases",
   str "all", str "everything", str "data"]

/-- `genericEntities.includes(x)` for a possibly-absent string
(`includes(null)` and `includes(undefined)` are `false`). -/
def genericContains : Option Str → Bool
  | none => false
  | some s => genericEntities.contains s

/-- `!entity || genericEntities.includes(normalized) ||
genericEntities.includes(entity?.toLowerCase())`. -/
def isGeneric (entity : Option Str) : Bool :=
  !truthyS entity || genericContains (normalizeEntity entity) ||
    genericContains (entity.map lowerStr)

/-- Operator of a Firestore `where` clause used by the controller. -/
inductive WhereOp where
  | eq
  | gte
  | lte
deriving DecidableEq, Repr

/-- One `query.where(field, op, value)` clause. -/
structure WherePred where
  field : Str
  op : WhereOp
  value : DbVal
deriving DecidableEq, Repr

/-- A store query as issued: its clauses and its `limit`, if any. -/
structure StoreQuery where
  preds : List WherePred
  qlimit : Option Nat
deriving DecidableEq, Repr

/-- `key !== 'entity'` as a boolean. -/
def keyIsEntity (k : Str) : Bool := decide (k = str "entity")

/-- `filters ? Object.keys(filters).filter(key => key !== 'entity') : []`,
kept with the values. -/
def nonEntityFilters (filters : Option Bag) : Bag :=
  (filters.getD []).filter (fun kv => !keyIsEntity kv.1)

/-- `entity || dflt` for the message templates. -/
def entityOr (entity : Option Str) (dflt : Str) : Str :=
  if truthyS entity then entity.getD [] else dflt

/-- `!bag || Object.keys(bag).length === 0`. -/
def bagEmpty : Option Bag → Bool
  | none => true
  | some l => l.isEmpty

/-- The entity clause of `modifyRecord`/`deleteRecord`/`displayRecords`:
`if (entity && !isGeneric) query = query.where('entity','==', normalized)`. -/
def entityPredWild (entity : Option Str) : List WherePred :=
  if truthyS entity && !isGeneric entity then
    [⟨str "entity", .eq, .str ((normalizeEntity entity).getD [])⟩]
  else []

/-- Does a three-character window spell `min` or `max`, case-insensitively? -/
def isMinMax3 (c1 c2 c3 : Nat) : Bool :=
  (lowerCode c1 == 109 && lowerCode c2 == 105 && lowerCode c3 == 110) ||
  (lowerCode c1 == 109 && lowerCode c2 == 97 && lowerCode c3 == 120)

/-- `key.replace(/min|max/gi, '')`: remove every case-insensitive
occurrence of `min` or `max`, scanning left to right. -/
def stripMinMax : Str → Str
  | c1 :: c2 :: c3 :: rest =>
    if isMinMax3 c1 c2 c3 then stripMinMax rest
    else c1 :: stripMinMax (c2 :: c3 :: rest)
  | l => l

/-- One step of the filter loop of `displayRecords` (lines 324-341):
range keys, the `joinedLastMonth` sentinel, and equality fallback. -/
def displayStep (now : JsDate) (acc : List WherePred) (kv : Str × DbVal) : List WherePred :=
  if keyIsEntity kv.1 then acc
  else if containsSub (lowerStr kv.1) (str "min") ||
      containsSub (lowerStr kv.1) (str "max") then
    if containsSub (lowerStr kv.1) (str "min") then
      acc ++ [⟨lowerStr (stripMinMax kv.1), .gte, kv.2⟩]
    else
      acc ++ [⟨lowerStr (stripMinMax kv.1), .lte, kv.2⟩]
  else if kv.1 = str "joinedLastMonth" then
    acc ++ [⟨str "joinDate", .gte, .date (minusOneMonth now)⟩]
  else
    acc ++ [⟨kv.1, .eq, kv.2⟩]

/-- The `where` clauses issued by `displayRecords` (lines 313-341). -/
def displayPreds (now : JsDate) (entity : Option Str) (filters : Option Bag) :
    List WherePred :=
  entityPredWild entity ++ (filters.getD []).foldl (displayStep now) []

/-- One step of the filter loop of `countRecords` (lines 374-380): every
non-entity key becomes an equality clause. -/
def countStep (acc : List WherePred) (kv : Str × DbVal) : List WherePred :=
  if keyIsEntity kv.1 then acc else acc ++ [⟨kv.1, .eq, kv.2⟩]

/-- The `where` clauses issued by `countRecords` (lines 370-380): note the
entity clause is guarded only by `if (entity)`, with no wildcard check. -/
def countPreds (entity : Option Str) (filters : Option Bag) : List WherePred :=
  (if truthyS entity then
    [⟨str "entity", .eq, .str ((normalizeEntity entity).getD [])⟩]
  else []) ++ (filters.getD []).foldl countStep []

/-- The `where` clauses issued by `modifyRecord` (lines 211-226): entity
clause plus at most the first non-entity filter key as an equality. -/
def modifyPreds (entity : Option Str) (filters : Option Bag) : List WherePred :=
  entityPredWild entity ++
    (match nonEntityFilters filters with
     | [] => []
     | (k, v) :: _ => [⟨k, .eq, v⟩])

/-- The `where` clauses issued by `deleteRecord` (lines 264-279), identical
in structure to the update path. -/
def deletePreds (entity : Option Str) (filters : Option Bag) : List WherePred :=
  entityPredWild entity ++
    (match nonEntityFilters filters with
     | [] => []
     | (k, v) :: _ => [⟨k, .eq, v⟩])

/-- Field lookup in a document (`doc.data()[field]`). -/
def getF : Bag → Str → Option DbVal
  | [], _ => none
  | (k', v) :: rest, k => if k' = k then some v else getF rest k

/-- JS object property assignment: overwrite the first occurrence of the
key, else append. -/
def setField : Bag → Str → DbVal → Bag
  | [], k, v => [(k, v)]
  | (k', v') :: rest, k, v =>
    if k' = k then (k, v) :: rest else (k', v') :: setField rest k v

/-- Object spread `{...fields, ...updates}`. -/
def mergeFields (fields updates : Bag) : Bag :=
  updates.foldl (fun acc kv => setField acc kv.1 kv.2) fields

/-- Ordering used by range clauses (numbers and dates; other Firestore
type comparisons are out of scope for these claims). -/
def dbLe : DbVal → DbVal → Bool
  | .num a, .num b => decide (a ≤ b)
  | .date a, .date b =>
    decide (a.year < b.year) ||
      (decide (a.year = b.year) &&
        (decide (a.month < b.month) ||
          (decide (a.month = b.month) && decide (a.day ≤ b.day))))
  | _, _ => false

/-- Does a record satisfy one `where` clause? A missing field matches
nothing. -/
def predMatches (r : Record) (p : WherePred) : Bool :=
  match getF r.fields p.field with
  | none => false
  | some v =>
    match p.op with
    | .eq => decide (v = p.value)
    | .gte => dbLe p.value v
    | .lte => dbLe v p.value

/-- The first record matching all clauses, with its position: the document
returned by `query.limit(1).get()`. -/
def firstMatch (preds : List WherePred) : List Record → Option (Nat × Record)
  | [] => none
  | r :: rest =>
    if preds.all (fun p => predMatches r p) then some (0, r)
    else (firstMatch preds rest).map (fun q => (q.1 + 1, q.2))

/-- A controller outcome: the human-readable message and the `data` list. -/
structure DbOutcome where
  message : Str
  data : Option (List Record)
deriving DecidableEq, Repr

/-- The value stored in the `entity` field at creation. -/
def entityVal : Option Str → DbVal
  | some s => .str s
  | none => .null

/-- `modifyRecord` (lines 203-254): reject an empty payload before any
query; otherwise find at most one matching document (`limit(1)`) and merge
the payload into it together with a fresh `updatedAt`.  Returns the
outcome, the new store, and the list of store queries issued. -/
def modifyRecord (now : JsDate) (store : List Record) (entity : Option Str)
    (filters : Option Bag) (updateData : Option Bag) :
    DbOutcome × List Record × List StoreQuery :=
  if bagEmpty updateData then
    (⟨str "No update data provided.", none⟩, store, [])
  else
    let preds := modifyPreds entity filters
    match firstMatch preds store with
    | none =>
      (⟨str "No " ++ entityOr entity (str "records") ++ str " found matching criteria.",
        none⟩, store, [⟨preds, some 1⟩])
    | some (i, doc) =>
      let ud := updateData.getD []
      let updated : Record :=
        ⟨doc.id, setField (mergeFields doc.fields ud) (str "updatedAt") (.date now)⟩
      (⟨str "Successfully updated the " ++ entityOr entity (str "record") ++ str ".",
        some [⟨doc.id, mergeFields doc.fields ud⟩]⟩,
       store.set i updated, [⟨preds, some 1⟩])

/-- `deleteRecord` (lines 260-301): find at most one matching document
(`limit(1)`) and delete it. -/
def deleteRecord (store : List Record) (entity : Option Str)
    (filters : Option Bag) : DbOutcome × List Record × List StoreQuery :=
  let preds := deletePreds entity filters
  match firstMatch preds store with
  | none =>
    (⟨str "No " ++ entityOr entity (str "records") ++ str " found matching criteria.",
      none⟩, store, [⟨preds, some 1⟩])
  | some (i, _) =>
    (⟨str "Successfully deleted the " ++ entityOr entity (str "record") ++ str ".",
      none⟩, store.eraseIdx i, [⟨preds, some 1⟩])

/-- `addRecord` (lines 166-197): an empty payload is an error; otherwise a
new document is created with the normalized entity tag, the payload, and
fresh `createdAt`/`updatedAt`. -/
def addRecord (now : JsDate) (newId : Nat) (store : List Record)
    (entity : Option Str) (data : Option Bag) :
    Except Str (DbOutcome × List Record) :=
  let normalizedEntity := normalizeEntity entity
  if bagEmpty data then
    .error (str "To add a new " ++ normalizedEntity.getD (str "record") ++
      str ", I need more details.")
  else
    let baseFields : Bag :=
      mergeFields [(str "entity", entityVal normalizedEntity)] (data.getD [])
    let fields :=
      setField (setField baseFields (str "createdAt") (.date now))
        (str "updatedAt") (.date now)
    .ok (⟨str "Successfully added a new " ++ entityOr entity (str "record") ++
        str " to the database.",
      some [⟨newId, mergeFields (data.getD []) [(str "entity", entityVal normalizedEntity)]⟩]⟩,
      store ++ [⟨newId, fields⟩])

/-- A fixed clock instant used by the concrete evaluations. -/
def sampleNow : JsDate := ⟨2025, 5, 15⟩

/-- **C10.** An update dispatched with an absent or empty data payload
returns the `No update data provided.` outcome before any store query is
issued (the query log is empty) and leaves the store unchanged, whereas
create rejects an empty payload with an error. -/
theorem update_empty_payload_short_circuits (now : JsDate) (store : List Record)
    (entity : Option Str) (filters : Option Bag) (newId : Nat) :
    modifyRecord now store entity filters none =
      (⟨str "No update data provided.", none⟩, store, []) ∧
    modifyRecord now store entity filters (some []) =
      (⟨str "No update data provided.", none⟩, store, []) ∧
    (∃ e, addRecord now newId store entity none = .error e) ∧
    (∃ e, addRecord now newId store entity (some []) = .error e) :=
  ⟨rfl, rfl, ⟨_, rfl⟩, ⟨_, rfl⟩⟩

/-- **C7 (failing input).** The read path translates `minPrice` to the range
clause `price >= 100`, but the count path — whose comment claims the filter
logic "is same as before" — issues a plain equality clause on the literal
key `minPrice` instead, and likewise leaves `joinedLastMonth` untranslated. -/
theorem count_path_skips_filter_translation :
    displayPreds sampleNow (some (str "products"))
        (some [(str "minPrice", .num 100)]) =
      [⟨str "entity", .eq, .str (str "products")⟩,
       ⟨str "price", .gte, .num 100⟩] ∧
    countPreds (some (str "products")) (some [(str "minPrice", .num 100)]) =
      [⟨str "entity", .eq, .str (str "products")⟩,
       ⟨str "minPrice", .eq, .num 100⟩] ∧
    countPreds (some (str "employees"))
        (some [(str "joinedLastMonth", .boolV true)]) =
      [⟨str "entity", .eq, .str (str "employees")⟩,
       ⟨str "joinedLastMonth", .eq, .boolV true⟩] := by
  decide

/-- Counterexample to C5 as stated: `records` is in the wildcard vocabulary,
yet the count path still issues the entity-equality clause on it, because
`countRecords` guards the clause only with `if (entity)`. -/
theorem count_keeps_wildcard_entity_clause :
    (str "records") ∈ genericEntities ∧
    countPreds (some (str "records")) none =
      [⟨str "entity", WhereOp.eq, DbVal.str (str "records")⟩] := by
  decide

/-- Entries of the filtered bag never carry the key `entity`. -/
theorem mem_nonEntityFilters_ne (filters : Option Bag) (kv : Str × DbVal)
    (h : kv ∈ nonEntityFilters filters) : kv.1 ≠ str "entity" := by
  have := List.of_mem_filter h
  simpa [keyIsEntity] using this

/-- A generic (wildcard) entity never produces the entity clause on the
update/delete/read paths. -/
theorem entityPredWild_eq_nil (entity : Option Str) (h : isGeneric entity = true) :
    entityPredWild entity = [] := by
  simp [entityPredWild, h]

/-- The display filter loop never emits an equality clause on `entity`. -/
theorem displayStep_no_entity_eq (now : JsDate) (l : Bag) :
    ∀ acc, (∀ p ∈ acc, ¬(p.field = str "entity" ∧ p.op = WhereOp.eq)) →
      ∀ p ∈ l.foldl (displayStep now) acc,
        ¬(p.field = str "entity" ∧ p.op = WhereOp.eq) := by
  induction l with
  | nil => intro acc hacc; simpa using hacc
  | cons kv rest ih =>
    intro acc hacc
    simp only [List.foldl_cons]
    apply ih
    intro p hp
    unfold displayStep at hp
    split_ifs at hp with h1 h2 h3 h4
    · exact hacc p hp
    · rcases List.mem_append.mp hp with h | h
      · exact hacc p h
      · simp only [List.mem_singleton] at h
        subst h
        simp
    · rcases List.mem_append.mp hp with h | h
      · exact hacc p h
      · simp only [List.mem_singleton] at h
        subst h
        simp
    · rcases List.mem_append.mp hp with h | h
      · exact hacc p h
      · simp only [List.mem_singleton] at h
        subst h
        intro hcon
        have hc : WhereOp.gte = WhereOp.eq := hcon.2
        exact absurd hc (by decide)
    · rcases List.mem_append.mp hp with h | h
      · exact hacc p h
      · simp only [List.mem_singleton] at h
        subst h
        intro hcon
        have hc : kv.1 = str "entity" := hcon.1
        exact h1 (by simp [keyIsEntity, hc])

/-- **C5 (amended).** For every entity string whose lower-cased raw form or
whose normalized form is in the wildcard vocabulary, the update, delete and
read paths omit the entity-equality clause entirely; the count path,
however, applies the entity-equality clause on the normalized tag whenever
an entity is given, wildcard or not. -/
theorem wildcard_entity_omitted_except_count (e : Str) (now : JsDate)
    (filters : Option Bag)
    (h : genericEntities.contains (lowerStr e) = true ∨
        genericContains (normalizeEntity (some e)) = true)
    (he : e ≠ []) :
    (∀ p ∈ modifyPreds (some e) filters,
      ¬(p.field = str "entity" ∧ p.op = WhereOp.eq)) ∧
    (∀ p ∈ deletePreds (some e) filters,
      ¬(p.field = str "entity" ∧ p.op = WhereOp.eq)) ∧
    (∀ p ∈ displayPreds now (some e) filters,
      ¬(p.field = str "entity" ∧ p.op = WhereOp.eq)) ∧
    (⟨str "entity", WhereOp.eq, DbVal.str ((normalizeEntity (some e)).getD [])⟩
      ∈ countPreds (some e) filters) := by
  have hgen : isGeneric (some e) = true := by
    unfold isGeneric
    rcases h with h | h
    · have hthis : genericContains (some (lowerStr e)) = true := by
        simpa [genericContains] using h
      simp [hthis]
    · simp [h]
  have hwild : entityPredWild (some e) = [] := entityPredWild_eq_nil _ hgen
  have htr : truthyS (some e) = true := by
    cases e with
    | nil => exact absurd rfl he
    | cons a as => rfl
  have hfirst : ∀ k v (rest2 : Bag), nonEntityFilters filters = (k, v) :: rest2 →
      ∀ p ∈ ([⟨k, WhereOp.eq, v⟩] : List WherePred),
        ¬(p.field = str "entity" ∧ p.op = WhereOp.eq) := by
    intro k v rest2 hk p hp
    simp only [List.mem_singleton] at hp
    subst hp
    intro hcon
    have hc : k = str "entity" := hcon.1
    have hmem : (k, v) ∈ nonEntityFilters filters := by
      rw [hk]; exact List.mem_cons_self _ _
    exact mem_nonEntityFilters_ne filters (k, v) hmem hc
  refine ⟨?_, ?_, ?_, ?_⟩
  · intro p hp
    unfold modifyPreds at hp
    rw [hwild] at hp
    simp only [List.nil_append] at hp
    cases hk : nonEntityFilters filters with
    | nil => rw [hk] at hp; simp at hp
    | cons kv rest2 =>
      rw [hk] at hp
      exact hfirst kv.1 kv.2 rest2 (by rw [hk]) p hp
  · intro p hp
    unfold deletePreds at hp
    rw [hwild] at hp
    simp only [List.nil_append] at hp
    cases hk : nonEntityFilters filters with
    | nil => rw [hk] at hp; simp at hp
    | cons kv rest2 =>
      rw [hk] at hp
      exact hfirst kv.1 kv.2 rest2 (by rw [hk]) p hp
  · intro p hp
    unfold displayPreds at hp
    rw [hwild] at hp
    simp only [List.nil_append] at hp
    exact displayStep_no_entity_eq now (filters.getD []) [] (by simp) p hp
  · unfold countPreds
    rw [htr]
    simp

/-- Witness for the amended C5 at the wildcard token `Everything`. -/
theorem wildcard_entity_omitted_except_count_witness :
    (∀ p ∈ modifyPreds (some (str "Everything"))
        (some [(str "name", DbVal.str (str "X"))]),
      ¬(p.field = str "entity" ∧ p.op = WhereOp.eq)) ∧
    (∀ p ∈ deletePreds (some (str "Everything"))
        (some [(str "name", DbVal.str (str "X"))]),
      ¬(p.field = str "entity" ∧ p.op = WhereOp.eq)) ∧
    (∀ p ∈ displayPreds sampleNow (some (str "Everything"))
        (some [(str "name", DbVal.str (str "X"))]),
      ¬(p.field = str "entity" ∧ p.op = WhereOp.eq)) ∧
    (⟨str "entity", WhereOp.eq,
        DbVal.str ((normalizeEntity (some (str "Everything"))).getD [])⟩
      ∈ countPreds (some (str "Everything"))
        (some [(str "name", DbVal.str (str "X"))])) :=
  wildcard_entity_omitted_except_count (str "Everything") sampleNow
    (some [(str "name", DbVal.str (str "X"))]) (by decide) (by decide)

/-- Number of positions at which two equally-indexed stores differ. -/
def diffCount : List Record → List Record → Nat
  | a :: l₁, b :: l₂ => (if a = b then 0 else 1) + diffCount l₁ l₂
  | _, _ => 0

/-- A store differs from itself nowhere. -/
theorem diffCount_self (l : List Record) : diffCount l l = 0 := by
  induction l with
  | nil => rfl
  | cons a rest ih => simp [diffCount, ih]

/-- Overwriting one position changes at most one record. -/
theorem diffCount_set_le_one (l : List Record) (i : Nat) (u : Record) :
    diffCount l (l.set i u) ≤ 1 := by
  induction l generalizing i with
  | nil => simp [diffCount]
  | cons a rest ih =>
    cases i with
    | zero =>
      simp only [List.set_cons_zero, diffCount, diffCount_self]
      split_ifs <;> omega
    | succ i =>
      have := ih i
      simpa [diffCount] using this

/-- Erasing one position removes at most one record. -/
theorem length_le_eraseIdx_add_one (l : List Record) (i : Nat) :
    l.length ≤ (l.eraseIdx i).length + 1 := by
  induction l generalizing i with
  | nil => simp
  | cons a rest ih =>
    cases i with
    | zero => simp [List.eraseIdx]
    | succ i =>
      have := ih i
      simp only [List.eraseIdx, List.length_cons]
      omega

/-- **C6.** For an update or delete whose filter bag has at least one
non-entity key, the issued query consists of the entity clause (when the
entity is present and not a wildcard) plus exactly one equality clause on
the first non-entity filter key — every remaining filter key is ignored —
the query is limited to one match, and the operation changes at most one
record of the store. -/
theorem update_delete_use_first_filter_only
    (now : JsDate) (store : List Record) (entity : Option Str)
    (filters ud : Option Bag) (k : Str) (v : DbVal) (rest : Bag)
    (hk : nonEntityFilters filters = (k, v) :: rest) :
    modifyPreds entity filters = entityPredWild entity ++ [⟨k, WhereOp.eq, v⟩] ∧
    deletePreds entity filters = entityPredWild entity ++ [⟨k, WhereOp.eq, v⟩] ∧
    (∀ q ∈ (modifyRecord now store entity filters ud).2.2, q.qlimit = some 1) ∧
    (∀ q ∈ (deleteRecord store entity filters).2.2, q.qlimit = some 1) ∧
    diffCount store (modifyRecord now store entity filters ud).2.1 ≤ 1 ∧
    store.length ≤ (deleteRecord store entity filters).2.1.length + 1 := by
  refine ⟨by simp [modifyPreds, hk], by simp [deletePreds, hk], ?_, ?_, ?_, ?_⟩
  · intro q hq
    simp only [modifyRecord] at hq
    split_ifs at hq with h1
    · simp at hq
    · split at hq <;> simp at hq <;> rw [hq]
  · intro q hq
    simp only [deleteRecord] at hq
    split at hq <;> simp at hq <;> rw [hq]
  · simp only [modifyRecord]
    split_ifs with h1
    · simp [diffCount_self]
    · split
      · simp [diffCount_self]
      · simp [diffCount_set_le_one]
  · simp only [deleteRecord]
    split
    · simp
    · simp [length_le_eraseIdx_add_one]

/-- Witness for C6: an update with two filter keys only uses the first. -/
theorem update_delete_use_first_filter_only_witness :
    modifyPreds (some (str "employees"))
        (some [(str "name", DbVal.str (str "Bob")), (str "dept", DbVal.str (str "hr"))]) =
      entityPredWild (some (str "employees")) ++
        [⟨str "name", WhereOp.eq, DbVal.str (str "Bob")⟩] ∧
    deletePreds (some (str "employees"))
        (some [(str "name", DbVal.str (str "Bob")), (str "dept", DbVal.str (str "hr"))]) =
      entityPredWild (some (str "employees")) ++
        [⟨str "name", WhereOp.eq, DbVal.str (str "Bob")⟩] ∧
    (∀ q ∈ (modifyRecord sampleNow [] (some (str "employees"))
        (some [(str "name", DbVal.str (str "Bob")), (str "dept", DbVal.str (str "hr"))])
        (some [(str "dept", DbVal.str (str "it"))])).2.2, q.qlimit = some 1) ∧
    (∀ q ∈ (deleteRecord [] (some (str "employees"))
        (some [(str "name", DbVal.str (str "Bob")), (str "dept", DbVal.str (str "hr"))])).2.2,
      q.qlimit = some 1) ∧
    diffCount [] (modifyRecord sampleNow [] (some (str "employees"))
        (some [(str "name", DbVal.str (str "Bob")), (str "dept", DbVal.str (str "hr"))])
        (some [(str "dept", DbVal.str (str "it"))])).2.1 ≤ 1 ∧
    List.length ([] : List Record) ≤ (deleteRecord [] (some (str "employees"))
        (some [(str "name", DbVal.str (str "Bob")), (str "dept", DbVal.str (str "hr"))])).2.1.length + 1 :=
  update_delete_use_first_filter_only sampleNow [] (some (str "employees"))
    (some [(str "name", DbVal.str (str "Bob")), (str "dept", DbVal.str (str "hr"))])
    (some [(str "dept", DbVal.str (str "it"))])
    (str "name") (DbVal.str (str "Bob")) [(str "dept", DbVal.str (str "hr"))] (by decide)

/-- Counterexample to C8 as stated: a successful update whose payload
contains the key `entity` rewrites the record's entity tag (the payload is
spread into the document unfiltered). -/
theorem update_payload_can_change_entity :
    (modifyRecord sampleNow
        [⟨1, [(str "entity", .str (str "products")), (str "name", .str (str "x"))]⟩]
        (some (str "product")) none
        (some [(str "entity", DbVal.str (str "hacked"))])).1.message =
      str "Successfully updated the product." ∧
    ((modifyRecord sampleNow
        [⟨1, [(str "entity", .str (str "products")), (str "name", .str (str "x"))]⟩]
        (some (str "product")) none
        (some [(str "entity", DbVal.str (str "hacked"))])).2.1.head?.map
      (fun r => getF r.fields (str "entity"))) =
      some (some (DbVal.str (str "hacked"))) ∧
    ¬(DbVal.str (str "hacked") = DbVal.str (str "products")) := by
  decide

/-- Setting a field makes it hold that value. -/
theorem getF_setField_eq (f : Bag) (k : Str) (v : DbVal) :
    getF (setField f k v) k = some v := by
  induction f with
  | nil => simp [setField, getF]
  | cons kv rest ih =>
    obtain ⟨k', v'⟩ := kv
    by_cases h : k' = k
    · simp [setField, getF, h]
    · simp [setField, getF, h, ih]

/-- Setting one field leaves every other field unchanged. -/
theorem getF_setField_ne (f : Bag) (k k' : Str) (v : DbVal) (h : k' ≠ k) :
    getF (setField f k v) k' = getF f k' := by
  have hkk : ¬k = k' := fun hc => h hc.symm
  induction f with
  | nil => simp [setField, getF, hkk]
  | cons kv rest ih =>
    obtain ⟨k'', v''⟩ := kv
    by_cases h2 : k'' = k
    · subst h2
      simp only [setField, if_pos rfl, getF]
      rw [if_neg hkk, if_neg hkk]
    · simp only [setField, if_neg h2, getF]
      by_cases h3 : k'' = k'
      · simp [h3]
      · simp [h3, ih]

/-- Spreading a payload that does not mention a key leaves that key's value
unchanged. -/
theorem getF_mergeFields_not_mem (u : Bag) :
    ∀ (f : Bag) (k : Str), k ∉ u.map Prod.fst →
      getF (mergeFields f u) k = getF f k := by
  induction u with
  | nil => intro f k _; rfl
  | cons kv rest ih =>
    intro f k hk
    simp only [List.map_cons, List.mem_cons] at hk
    push_neg at hk
    simp only [mergeFields, List.foldl_cons]
    have := ih (setField f kv.1 kv.2) k (by simpa using hk.2)
    rw [show rest.foldl (fun acc kv => setField acc kv.1 kv.2) (setField f kv.1 kv.2) =
      mergeFields (setField f kv.1 kv.2) rest from rfl, this]
    exact getF_setField_ne f kv.1 k kv.2 hk.1

/-- The document found by `firstMatch` sits at the reported position. -/
theorem firstMatch_getElem (preds : List WherePred) :
    ∀ (l : List Record) (i : Nat) (doc : Record),
      firstMatch preds l = some (i, doc) → l[i]? = some doc := by
  intro l
  induction l with
  | nil => intro i doc h; simp [firstMatch] at h
  | cons r rest ih =>
    intro i doc h
    unfold firstMatch at h
    split_ifs at h with hr
    · simp only [Option.some_inj, Prod.mk.injEq] at h
      obtain ⟨hi, hd⟩ := h
      subst hi
      subst hd
      simp
    · cases hm : firstMatch preds rest with
      | none => rw [hm] at h; simp at h
      | some q =>
        obtain ⟨j, d⟩ := q
        rw [hm] at h
        simp only [Option.map_some', Option.some_inj, Prod.mk.injEq] at h
        obtain ⟨hi, hd⟩ := h
        subst hd
        rw [← hi]
        simpa using ih j d hm

/-- Replacing the record at a known position relates the stores pointwise. -/
theorem forall₂_set (R : Record → Record → Prop) :
    ∀ (l : List Record) (i : Nat) (doc u : Record), l[i]? = some doc →
      (∀ r ∈ l, R r r) → R doc u → List.Forall₂ R l (l.set i u) := by
  intro l
  induction l with
  | nil => intro i doc u h; simp at h
  | cons a rest ih =>
    intro i doc u hget hrefl hdu
    cases i with
    | zero =>
      simp only [List.getElem?_cons_zero, Option.some_inj] at hget
      subst hget
      exact List.Forall₂.cons hdu ((List.forall₂_same).mpr
        (fun r hr => hrefl r (List.mem_cons_of_mem _ hr)))
    | succ i =>
      simp only [List.getElem?_cons_succ] at hget
      exact List.Forall₂.cons (hrefl a (List.mem_cons_self _ _))
        (ih i doc u hget (fun r hr => hrefl r (List.mem_cons_of_mem _ hr)) hdu)

/-- **C8 (amended).** A successful update whose payload does not contain the
key `entity` never changes any record's entity tag or its id, and stamps
the updated record's `updatedAt` with the mutation time; every other record
is untouched. -/
theorem update_preserves_entity_id_refreshes_timestamp
    (now : JsDate) (store : List Record) (entity : Option Str)
    (filters ud : Option Bag)
    (h : (str "entity") ∉ (ud.getD []).map Prod.fst) :
    List.Forall₂ (fun r r' => r'.id = r.id ∧
        getF r'.fields (str "entity") = getF r.fields (str "entity") ∧
        (r' = r ∨ getF r'.fields (str "updatedAt") = some (DbVal.date now)))
      store (modifyRecord now store entity filters ud).2.1 := by
  have hrefl : ∀ (l : List Record) (r : Record), r ∈ l →
      r.id = r.id ∧ getF r.fields (str "entity") = getF r.fields (str "entity") ∧
        (r = r ∨ getF r.fields (str "updatedAt") = some (DbVal.date now)) :=
    fun _ r _ => ⟨rfl, rfl, Or.inl rfl⟩
  simp only [modifyRecord]
  split_ifs with h1
  · exact (List.forall₂_same).mpr (hrefl store)
  · split
    · exact (List.forall₂_same).mpr (hrefl store)
    · rename_i i doc hm
      apply forall₂_set _ store i doc _ (firstMatch_getElem _ store i doc hm)
        (hrefl store)
      refine ⟨rfl, ?_, Or.inr ?_⟩
      · rw [getF_setField_ne _ _ _ _ (by decide)]
        exact getF_mergeFields_not_mem (ud.getD []) doc.fields (str "entity") h
      · exact getF_setField_eq _ _ _

/-- Witness for the amended C8 at a concrete store and payload. -/
theorem update_preserves_entity_id_refreshes_timestamp_witness :
    List.Forall₂ (fun r r' => r'.id = r.id ∧
        getF r'.fields (str "entity") = getF r.fields (str "entity") ∧
        (r' = r ∨ getF r'.fields (str "updatedAt") = some (DbVal.date sampleNow)))
      [⟨1, [(str "entity", .str (str "products")), (str "name", .str (str "x"))]⟩]
      ((modifyRecord sampleNow
        [⟨1, [(str "entity", .str (str "products")), (str "name", .str (str "x"))]⟩]
        (some (str "product")) none
        (some [(str "name", DbVal.str (str "y"))])).2.1) :=
  update_preserves_entity_id_refreshes_timestamp sampleNow
    [⟨1, [(str "entity", .str (str "products")), (str "name", .str (str "x"))]⟩]
    (some (str "product")) none (some [(str "name", DbVal.str (str "y"))])
    (by decide)

/-! ## Entity normalization is idempotent (C9) -/

/-- ASCII lower-casing is idempotent per character code. -/
theorem lowerCode_idem (c : Nat) : lowerCode (lowerCode c) = lowerCode c := by
  unfold lowerCode
  split_ifs <;> omega

/-- A string all of whose codes are lower-case fixed points is unchanged by
lower-casing. -/
theorem lowerStr_fixed (t : Str) (h : ∀ c ∈ t, lowerCode c = c) :
    lowerStr t = t :=
  (List.map_congr_left h).trans (List.map_id t)

/-- Trimming only removes characters of the original string. -/
theorem mem_trimStr (l : Str) (c : Nat) (hc : c ∈ trimStr l) : c ∈ l := by
  unfold trimStr at hc
  rw [List.mem_reverse] at hc
  have h1 := (List.dropWhile_sublist isWsCode).subset hc
  rw [List.mem_reverse] at h1
  exact (List.dropWhile_sublist isWsCode).subset h1

/-- The head surviving `dropWhile` does not satisfy the predicate. -/
theorem head_dropWhile_not_ws : ∀ (l : Str) (c : Nat),
    (l.dropWhile isWsCode).head? = some c → isWsCode c = false := by
  intro l
  induction l with
  | nil => intro c h; simp [List.dropWhile] at h
  | cons a rest ih =>
    intro c h
    rw [List.dropWhile_cons] at h
    by_cases ha : isWsCode a = true
    · rw [if_pos ha] at h
      exact ih c h
    · rw [if_neg ha] at h
      simp only [List.head?_cons, Option.some_inj] at h
      subst h
      simpa using ha

/-- The trimmed string is a prefix of the left-trimmed string. -/
theorem trimStr_append_ldrop (l : Str) :
    ∃ t, trimStr l ++ t = l.dropWhile isWsCode := by
  have h1 : ((l.dropWhile isWsCode).reverse.dropWhile isWsCode) <:+
      (l.dropWhile isWsCode).reverse := List.dropWhile_suffix _
  have h2 : (((l.dropWhile isWsCode).reverse.dropWhile isWsCode).reverse).reverse <:+
      (l.dropWhile isWsCode).reverse := by
    simpa [List.reverse_reverse] using h1
  exact List.reverse_suffix.mp h2

/-- The head of the trimmed string is not whitespace. -/
theorem trimStr_head_not_ws (l : Str) (c : Nat)
    (h : (trimStr l).head? = some c) : isWsCode c = false := by
  obtain ⟨t, ht⟩ := trimStr_append_ldrop l
  have hh : (l.dropWhile isWsCode).head? = some c := by
    rw [← ht, List.head?_append, h]
    rfl
  exact head_dropWhile_not_ws l c hh

/-- The last character of the trimmed string is not whitespace. -/
theorem trimStr_getLast_not_ws (l : Str) (c : Nat)
    (h : (trimStr l).getLast? = some c) : isWsCode c = false := by
  unfold trimStr at h
  rw [List.getLast?_reverse] at h
  exact head_dropWhile_not_ws (l.dropWhile isWsCode).reverse c h

/-- A string whose ends are not whitespace is unchanged by trimming. -/
theorem trimStr_noop (l : Str)
    (h1 : ∀ c, l.head? = some c → isWsCode c = false)
    (h2 : ∀ c, l.getLast? = some c → isWsCode c = false) :
    trimStr l = l := by
  cases l with
  | nil => rfl
  | cons a rest =>
    have ha : isWsCode a = false := h1 a rfl
    unfold trimStr
    rw [List.dropWhile_cons, if_neg (by simp [ha])]
    cases hrev : (a :: rest).reverse with
    | nil => exact absurd hrev (by simp)
    | cons b s =>
      have hb : (a :: rest).getLast? = some b := by
        rw [← List.head?_reverse, hrev]
        rfl
      have hbw : isWsCode b = false := h2 b hb
      rw [List.dropWhile_cons, if_neg (by simp [hbw]), ← hrev,
        List.reverse_reverse]

/-- The head of a nonempty `dropLast` is the head of the list. -/
theorem head_dropLast (l : Str) (c : Nat) (h : l.dropLast.head? = some c) :
    l.head? = some c := by
  match l with
  | [] => simp [List.dropLast] at h
  | [a] => simp [List.dropLast] at h
  | a :: b :: r =>
    simp only [List.dropLast, List.head?_cons, Option.some_inj] at h ⊢
    exact h

/-- Case split on the head of an appended string. -/
theorem head_append_cases (t u : Str) (c : Nat) (h : (t ++ u).head? = some c) :
    t.head? = some c ∨ (t.head? = none ∧ u.head? = some c) := by
  rw [List.head?_append] at h
  cases ht : t.head? with
  | some a =>
    rw [ht] at h
    exact Or.inl h
  | none =>
    rw [ht] at h
    exact Or.inr ⟨rfl, h⟩

/-- Any string that is lower-case-fixed, whitespace-free at both ends,
nonempty and ending in `s` is a fixed point of `normalizeEntity`. -/
theorem normalize_fixed (n : Str)
    (hne : n ≠ [])
    (hlow : ∀ c ∈ n, lowerCode c = c)
    (hhead : ∀ c, n.head? = some c → isWsCode c = false)
    (hlast : n.getLast? = some 115) :
    normalizeEntity (some n) = some n := by
  have hnempty : n.isEmpty = false := by
    cases n with
    | nil => exact absurd rfl hne
    | cons a rest => rfl
  have htrim : trimStr (lowerStr n) = n := by
    rw [lowerStr_fixed n hlow]
    refine trimStr_noop n hhead (fun c hc => ?_)
    rw [hlast] at hc
    obtain rfl : (115 : Nat) = c := by simpa using hc
    rfl
  have h121 : endsWithCode n 121 = false := by
    simp [endsWithCode, hlast]
  have h115 : endsWithCode n 115 = true := by
    simp [endsWithCode, hlast]
  simp only [normalizeEntity, hnempty, Bool.false_eq_true, if_false, htrim,
    h121, h115, if_true]

/-- The codes appended by normalization are lower-case fixed points. -/
theorem lower_fixed_ies : ∀ c ∈ str "ies", lowerCode c = c := by decide

/-- `s` (code 115) is a lower-case fixed point. -/
theorem lower_fixed_s : ∀ c ∈ str "s", lowerCode c = c := by decide

/-- **C9.** Entity normalization is idempotent: applying `normalizeEntity`
to its own output returns that output, for every string (the empty string
maps to `null`, which is itself a fixed point). -/
theorem normalizeEntity_idempotent (s : Str) :
    normalizeEntity (normalizeEntity (some s)) = normalizeEntity (some s) := by
  by_cases hs : s.isEmpty = true
  · have h0 : normalizeEntity (some s) = none := by
      simp [normalizeEntity, hs]
    rw [h0]
    rfl
  · have hs' : s.isEmpty = false := by simpa using hs
    have htlow : ∀ c ∈ trimStr (lowerStr s), lowerCode c = c := by
      intro c hc
      obtain ⟨a, _, rfl⟩ := List.mem_map.mp (mem_trimStr (lowerStr s) c hc)
      exact lowerCode_idem a
    have hthead : ∀ c, (trimStr (lowerStr s)).head? = some c → isWsCode c = false :=
      fun c hc => trimStr_head_not_ws (lowerStr s) c hc
    by_cases h121 : endsWithCode (trimStr (lowerStr s)) 121 = true
    · have hval : normalizeEntity (some s) =
          some ((trimStr (lowerStr s)).dropLast ++ str "ies") := by
        simp [normalizeEntity, hs', h121]
      rw [hval]
      refine normalize_fixed _ (by simp [str]) ?_ ?_ ?_
      · intro c hc
        rcases List.mem_append.mp hc with hc | hc
        · exact htlow c ((List.dropLast_sublist _).subset hc)
        · exact lower_fixed_ies c hc
      · intro c hc
        rcases head_append_cases _ _ c hc with hc | hc
        · exact hthead c (head_dropLast _ c hc)
        · obtain ⟨-, hc⟩ := hc
          obtain rfl : (105 : Nat) = c := by
            simpa [str] using hc
          rfl
      · rw [List.getLast?_append]
        rfl
    · by_cases h115 : endsWithCode (trimStr (lowerStr s)) 115 = true
      · have hval : normalizeEntity (some s) = some (trimStr (lowerStr s)) := by
          simp [normalizeEntity, hs', h121, h115]
        rw [hval]
        have hlast : (trimStr (lowerStr s)).getLast? = some 115 := by
          simpa [endsWithCode] using h115
        refine normalize_fixed _ ?_ htlow hthead hlast
        intro hnil
        rw [hnil] at hlast
        simp at hlast
      · have hval : normalizeEntity (some s) =
            some (trimStr (lowerStr s) ++ str "s") := by
          simp [normalizeEntity, hs', h121, h115]
        rw [hval]
        refine normalize_fixed _ (by simp [str]) ?_ ?_ ?_
        · intro c hc
          rcases List.mem_append.mp hc with hc | hc
          · exact htlow c hc
          · exact lower_fixed_s c hc
        · intro c hc
          rcases head_append_cases _ _ c hc with hc | hc
          · exact hthead c hc
          · obtain ⟨-, hc⟩ := hc
            obtain rfl : (115 : Nat) = c := by
              simpa [str] using hc
            rfl
        · rw [List.getLast?_append]
          rfl
